import Mathlib

/-!
Verification of the SBLLmalloc page-deduplication layer against its
natural-language specification.

The definitions below are a shallow embedding of the repository's source:

* `src/AVL.cpp` — the allocation-index tree (`InsertAVL`, `RemoveAVL`,
  `FindAVL`, `FindRangeAVL`, `Balance`, the four rotations);
* `SharedHeap.cpp` (`src/unnamed/part_003`) — the allocator entry points
  (`ShmMallocWrapper`, `ShmFreeWrapper`, `ShmReallocWrapper`,
  `ShmGetSizeWrapper`), the merge engine (`MergeManyPages`, `MergeNode2`,
  `RemapRegion`, `CopyAndRemapRegion`, `RemapToZero`) and the threshold
  policy (`MergeByTHRESHOLD`);
* `SharedHeap.h` (`src/unnamed/part_004`) — compile-time configuration.

Build configuration facts used throughout (from `SharedHeap.h`):
`SHARED_STATS` and `COLLECT_MALLOC_STAT` are defined, `PART_BLOCK_MERGE_STAT`,
`ENABLE_PROFILER`, `PROFILE_BASED_MERGE`, `MICROTIME_STAT` and
`REPORT_MERGES` are not.  `assert.h` is included before `#define NDEBUG`,
so `ASSERTX(e)` still evaluates `e` (side effects of asserted expressions,
such as `SH_UNMAP`, do run).

Machine integers are modelled as `Nat`/`Int` with explicit `% 2 ^ 64`
(or `% 2 ^ 32`) where the C arithmetic can wrap.  Addresses are modelled
as plain naturals; the C code translates an address to a bitmap index via
`TranslateMmapAddr` and aborts the process for addresses outside the
3 GiB heap window, so the model covers the in-window addresses that the
allocation path actually produces (the window check itself never yields
an index collision because the translation is injective on the window).
-/

namespace SBLL

/-! ## AVL tree (src/AVL.cpp)

`AVLTreeNode` carries `key` (region base address), `value` (region size —
the code stores the size cast to a pointer), the stored `height` and the
`dirty` flag.  The `creator`/`callStack` diagnostics fields play no role in
any claim and are omitted.  The comparator `MyComparator` returns the sign
of the pointer difference, i.e. the numeric order of the base addresses. -/

inductive AVLNode where
  | nil : AVLNode
  | node (key : Nat) (value : Nat) (height : Int) (dirty : Bool)
      (left : AVLNode) (right : AVLNode) : AVLNode
deriving Repr, DecidableEq

namespace AVLNode

/-- `GetHeight`: stored height of a node, 0 for NULL. -/
def GetHeight : AVLNode → Int
  | nil => 0
  | node _ _ h _ _ _ => h

/-- `GetBalance`: right stored height minus left stored height
(each taken as 0 for a missing child). -/
def GetBalance : AVLNode → Int
  | nil => 0
  | node _ _ _ _ l r => GetHeight r - GetHeight l

/-- `RotateSingleRight`.  The source reads `a = node->left->left`,
`b = node->left->right`, `c = node->right`, `d = node->left`, `e = node`,
then computes `e->height` from `GetHeight(b)` for BOTH operands of the max
(lines 483–484 of AVL.cpp read `left = GetHeight(b); right = GetHeight(b);`)
and `d->height = e->height + 1`.  Callers guarantee `node->left != NULL`
(balance < -1 forces a left child); the fall-through case is unreachable. -/
def RotateSingleRight : AVLNode → AVLNode
  | node ek ev _eh ed (node dk dv _dh dd a b) c =>
      let e_height := max (GetHeight b) (GetHeight b) + 1
      let d_height := e_height + 1
      node dk dv d_height dd a (node ek ev e_height ed b c)
  | t => t

/-- `RotateSingleLeft`.  `a = node->left`, `b = node->right->left`,
`c = node->right->right`, `d = node`, `e = node->right`;
`d->height = max(GetHeight(a), GetHeight(b)) + 1`, `e->height = d->height + 1`.
Callers guarantee `node->right != NULL`. -/
def RotateSingleLeft : AVLNode → AVLNode
  | node dk dv _dh dd a (node ek ev _eh ed b c) =>
      let d_height := max (GetHeight a) (GetHeight b) + 1
      let e_height := d_height + 1
      node ek ev e_height ed (node dk dv d_height dd a b) c
  | t => t

/-- `RotateDoubleRight`: single left on the left child, then single right. -/
def RotateDoubleRight : AVLNode → AVLNode
  | node k v h d l r => RotateSingleRight (node k v h d (RotateSingleLeft l) r)
  | nil => nil

/-- `RotateDoubleLeft`: single right on the right child, then single left. -/
def RotateDoubleLeft : AVLNode → AVLNode
  | node k v h d l r => RotateSingleLeft (node k v h d l (RotateSingleRight r))
  | nil => nil

/-- The closing lines of `Balance`: recompute the root's stored height from
its children's (possibly stale) stored heights,
`(*node)->height = max(GetHeight(left), GetHeight(right)) + 1`. -/
def reheight : AVLNode → AVLNode
  | nil => nil
  | node k v _ d l r => node k v (max (GetHeight l) (GetHeight r) + 1) d l r

/-- `Balance`: rotate when the stored balance leaves `[-1, 1]`, then recompute
this node's stored height (`reheight`).  The source dereferences `*node`; it
is never called on an empty tree, so the `nil` case is unreachable. -/
def Balance (t : AVLNode) : AVLNode :=
  match t with
  | nil => nil
  | node _ _ _ _ l r =>
    let bal := GetBalance t
    reheight
      (if bal < -1 then
        if GetBalance l > 0 then RotateDoubleRight t else RotateSingleRight t
      else if bal > 1 then
        if GetBalance r < 0 then RotateDoubleLeft t else RotateSingleLeft t
      else t)

/-- Fresh node as created by `Insert`: height 1, dirty 0, no children. -/
def newLeaf (k v : Nat) : AVLNode := node k v 1 false nil nil

/-- Helper `Insert(data, node, key, value)` of AVL.cpp, as a tree transformer.
When the key is already present the tree is returned unchanged (the value is
not inserted).  When a fresh leaf is created directly under this node, the
source increments this node's height if it now has exactly one child, then
calls `Balance`; when it recursed into an existing child it calls `Balance`
after the recursion. -/
def Insert : AVLNode → Nat → Nat → AVLNode
  | nil, k, v => newLeaf k v
  | node key val h d l r, k, v =>
    if k < key then
      match l with
      | nil =>
          let h1 := match r with | nil => h + 1 | node _ _ _ _ _ _ => h
          Balance (node key val h1 d (newLeaf k v) r)
      | node _ _ _ _ _ _ => Balance (node key val h d (Insert l k v) r)
    else if key < k then
      match r with
      | nil =>
          let h1 := match l with | nil => h + 1 | node _ _ _ _ _ _ => h
          Balance (node key val h1 d l (newLeaf k v))
      | node _ _ _ _ _ _ => Balance (node key val h d l (Insert r k v))
    else
      node key val h d l r

/-- `InsertAVL`: helper `Insert` on the root followed by `Balance` on the root. -/
def InsertAVL (t : AVLNode) (k v : Nat) : AVLNode := Balance (Insert t k v)

/-- `RemoveLeftMost`: removes the left-most node, returning its
(key, value) and the remaining subtree.  On the path back up the source
recomputes the stored height as `max(lh, rh)` where `lh`/`rh` are child
stored heights plus one (0 for a missing child), then calls `Balance`.
Never called on an empty tree. -/
def RemoveLeftMost : AVLNode → (Nat × Nat) × AVLNode
  | nil => ((0, 0), nil)
  | node k v _h d l r =>
    match l with
    | nil => ((k, v), r)
    | node _ _ _ _ _ _ =>
      let res := RemoveLeftMost l
      let lh : Int := match res.2 with | nil => 0 | node _ _ hh _ _ _ => hh + 1
      let rh : Int := match r with | nil => 0 | node _ _ hh _ _ _ => hh + 1
      (res.1, Balance (node k v (max rh lh) d res.2 r))

/-- `RemoveRightMost`: mirror image of `RemoveLeftMost`. -/
def RemoveRightMost : AVLNode → (Nat × Nat) × AVLNode
  | nil => ((0, 0), nil)
  | node k v _h d l r =>
    match r with
    | nil => ((k, v), l)
    | node _ _ _ _ _ _ =>
      let res := RemoveRightMost r
      let lh : Int := match l with | nil => 0 | node _ _ hh _ _ _ => hh + 1
      let rh : Int := match res.2 with | nil => 0 | node _ _ hh _ _ _ => hh + 1
      (res.1, Balance (node k v (max rh lh) d l res.2))

/-- Helper `Remove` of AVL.cpp: returns the removed value (NULL → `none`) and
the new tree.  A found node with a right subtree is overwritten with the
key/value of the right subtree's left-most node (its stored height and dirty
flag are NOT copied — the source only assigns `key` and `value`); mirror case
for a left subtree; a childless node is deleted. -/
def Remove : AVLNode → Nat → Option Nat × AVLNode
  | nil, _ => (none, nil)
  | node key val h d l r, k =>
    if k < key then
      let res := Remove l k
      (res.1, Balance (node key val h d res.2 r))
    else if key < k then
      let res := Remove r k
      (res.1, Balance (node key val h d l res.2))
    else
      match r with
      | node _ _ _ _ _ _ =>
        let res := RemoveLeftMost r
        (some val, Balance (node res.1.1 res.1.2 h d l res.2))
      | nil =>
        match l with
        | node _ _ _ _ _ _ =>
          let res := RemoveRightMost l
          (some val, Balance (node res.1.1 res.1.2 h d res.2 nil))
        | nil => (some val, nil)

/-- `RemoveAVL`: just the helper `Remove` on the root (no extra root balance). -/
def RemoveAVL (t : AVLNode) (k : Nat) : Option Nat × AVLNode := Remove t k

/-- `FindAVL`: exact-key search by the comparator, returning the stored value. -/
def FindAVL : AVLNode → Nat → Option Nat
  | nil, _ => none
  | node key val _ _ l r, k =>
    if k < key then FindAVL l k
    else if key < k then FindAVL r k
    else some val

/-- `FindRangeAVL`: interval-cover search.  Descend left when the query is
below the node's key; when the query is above the key, first return this
node if `key + value > query` (unsigned arithmetic — no wrap for real
regions), else descend right; return this node on an exact key match. -/
def FindRangeAVL : AVLNode → Nat → Option (Nat × Nat)
  | nil, _ => none
  | node key val _ _ l r, k =>
    if k < key then FindRangeAVL l k
    else if key < k then
      if key + val > k then some (key, val) else FindRangeAVL r k
    else some (key, val)

/-- In-order list of (key, value) pairs, i.e. of (base, size) regions. -/
def inorder : AVLNode → List (Nat × Nat)
  | nil => []
  | node k v _ _ l r => inorder l ++ (k, v) :: inorder r

/-- True (mathematical) height of a tree: 0 for the empty tree. -/
def trueHeight : AVLNode → Int
  | nil => 0
  | node _ _ _ _ l r => max (trueHeight l) (trueHeight r) + 1

/-- Does every node's stored height equal the true height of its subtree? -/
def heightsOk : AVLNode → Bool
  | nil => true
  | node _ _ h _ l r =>
    decide (h = max (trueHeight l) (trueHeight r) + 1) && heightsOk l && heightsOk r

/-- Do the true heights of every node's two subtrees differ by at most one? -/
def balancedOk : AVLNode → Bool
  | nil => true
  | node _ _ _ _ l r =>
    decide ((trueHeight l - trueHeight r).natAbs ≤ 1) && balancedOk l && balancedOk r

/-- Fold a list of insertions into an empty tree (value 1 for each key). -/
def insertSeq (ks : List Nat) : AVLNode :=
  ks.foldl (fun t k => InsertAVL t k 1) nil

end AVLNode

/-! ## Page and counter state (SharedHeap.cpp)

A page of the per-process heap window is described by the bits the code
keeps for it and by an abstraction of its byte contents: `content` is the
value of the page's bytes (`0` encodes the all-zero page, the value the
canonical zero frame holds), `sharedContent` is the value currently held by
the page's frame in the shared backing file (the file is created
zero-filled, hence the default `0`).  `otherCount` is the number of holder
bits other siblings have set for this frame (`CountSharingProcs` minus this
process's own bit); `IsOtherSharing` is `otherCount ≠ 0`. -/

inductive Mapping where
  | unmapped : Mapping
  | privateAnon : Mapping   -- MAP_PRIVATE|MAP_ANONYMOUS
  | zeroFrame : Mapping     -- MAP_SHARED at file offset 0 (canonical zero page)
  | sharedFrame : Mapping   -- MAP_SHARED at the page's own file offset
deriving Repr, DecidableEq

inductive Prot where
  | readOnly : Prot
  | readWrite : Prot
deriving Repr, DecidableEq

structure PageSt where
  initialized : Bool    -- bit in initializedPagesBV (COLLECT_MALLOC_STAT)
  zero : Bool           -- bit in zeroPagesBV
  sharing : Bool        -- this process's bit in sharingProcessesInfo
  otherCount : Nat      -- other processes' bits in sharingProcessesInfo
  content : Nat         -- abstraction of the page's bytes (0 = all zeros)
  sharedContent : Nat   -- bytes of this page's frame in the shared file
  mapping : Mapping
  prot : Prot           -- meaningful for mapped pages only
deriving Repr, DecidableEq

/-- Bitmap state of a page index never touched: all bits clear, zero-filled
file frame, nothing mapped. -/
def defaultPage : PageSt :=
  ⟨false, false, false, 0, 0, 0, Mapping.unmapped, Prot.readOnly⟩

/-- Per-process view of the allocator state outside the index tree: the page
map (keyed by page address) and the counters of SharedHeap.cpp
(`zeroPageCount` is process-local; the other three live in the shared
metadata page; `mmapCount` counts SH_MMAP minus SH_UNMAP). -/
structure Pc where
  pages : List (Nat × PageSt)
  zeroPageCount : Int
  sharedPageCount : Int
  allProcPrivatePageCount : Int
  baseCaseTotalPageCount : Int
  mmapCount : Int
deriving Repr, DecidableEq

/-- Read a page's bits/state (a bitmap location never written reads as 0). -/
def pget : List (Nat × PageSt) → Nat → PageSt
  | [], _ => defaultPage
  | (b, p) :: rest, a => if b = a then p else pget rest a

/-- Write a page's bits/state. -/
def pset : List (Nat × PageSt) → Nat → PageSt → List (Nat × PageSt)
  | [], a, pg => [(a, pg)]
  | (b, p) :: rest, a, pg =>
    if b = a then (a, pg) :: rest else (b, p) :: pset rest a pg

/-- `CountSharingProcs`: popcount of the holder-bitmap entry, i.e. the other
siblings' bits plus this process's own bit. -/
def countSharingProcs (pg : PageSt) : Nat :=
  pg.otherCount + (if pg.sharing then 1 else 0)

/-- `IsCloseToMmapLimit` returns false unconditionally — the real check is
commented out in the source (SharedHeap.cpp lines 853–857). -/
def IsCloseToMmapLimit : Bool := false

/-- Page size: `sysconf(_SC_PAGESIZE)`, 4096 on every supported system. -/
def PAGE_SIZE : Nat := 4096

/-- The page addresses of a region: the loops `for(s = 0; s < size;
s += PAGE_SIZE)` visit `⌈size / PAGE_SIZE⌉` pages starting at `start`. -/
def regionPages (start size : Nat) : List Nat :=
  (List.range ((size + PAGE_SIZE - 1) / PAGE_SIZE)).map (fun i => start + PAGE_SIZE * i)

/-! ## Shared-page manipulation (RemapRegion, CopyAndRemapRegion, RemapToZero) -/

/-- `RemapRegion(start, size)`: one `GetSharedRegion(start, MAP_FIXED)` call
maps the shared frames read-write over the whole run (SH_MMAP counts one
map); then for every page the counters are adjusted — `sharedPageCount++`
and `allProcPrivatePageCount--` when exactly one holder existed — plus one
more `allProcPrivatePageCount--`, and the holder bit is set; finally
`MakeReadOnlyWrapper` downgrades the run to read-only. -/
def RemapRegion (run : List Nat) (pc : Pc) : Pc :=
  let pc := { pc with mmapCount := pc.mmapCount + 1 }
  let pc := { pc with pages := run.foldl (fun ps a =>
    let pg := pget ps a
    pset ps a { pg with mapping := Mapping.sharedFrame, content := pg.sharedContent,
                        prot := Prot.readWrite }) pc.pages }
  let pc := run.foldl (fun pc a =>
    let pg := pget pc.pages a
    let pc :=
      if countSharingProcs pg = 1 then
        { pc with sharedPageCount := pc.sharedPageCount + 1,
                  allProcPrivatePageCount := pc.allProcPrivatePageCount - 1 }
      else pc
    let pc := { pc with allProcPrivatePageCount := pc.allProcPrivatePageCount - 1 }
    let pg1 := { pg with mapping := Mapping.sharedFrame, content := pg.sharedContent,
                         prot := Prot.readWrite, sharing := true }
    { pc with pages := pset pc.pages a pg1 }) pc
  { pc with pages := run.foldl (fun ps a =>
      pset ps a { pget ps a with prot := Prot.readOnly }) pc.pages }

/-- `CopyAndRemapRegion(start, size)`: `GetSharedRegion(start, false)` maps
the shared frames elsewhere (one SH_MMAP), `memcpy` publishes the private
contents into the frames, `mremap(MREMAP_FIXED)` moves that mapping onto
the region (not counted by SH_MMAP/SH_UNMAP), every holder bit is set, and
the run is made read-only.  No aggregate counters are touched. -/
def CopyAndRemapRegion (run : List Nat) (pc : Pc) : Pc :=
  let pc := { pc with mmapCount := pc.mmapCount + 1 }
  let pc := { pc with pages := run.foldl (fun ps a =>
    let pg := pget ps a
    pset ps a { pg with sharedContent := pg.content, mapping := Mapping.sharedFrame,
                        prot := Prot.readWrite, sharing := true }) pc.pages }
  { pc with pages := run.foldl (fun ps a =>
      pset ps a { pget ps a with prot := Prot.readOnly }) pc.pages }

/-- One iteration of the `RemapToZero` loop body on page `a`: SH_MMAP of the
zero frame (counted even when the kernel refuses), and on success the page
is now a read-only view of frame 0, `zeroPageCount` grows and
`allProcPrivatePageCount` shrinks. -/
def zeroPageOk (pc : Pc) (a : Nat) : Pc :=
  let pg := pget pc.pages a
  { pc with
    pages := pset pc.pages a
      { pg with mapping := Mapping.zeroFrame, prot := Prot.readOnly, content := 0 },
    zeroPageCount := pc.zeroPageCount + 1,
    allProcPrivatePageCount := pc.allProcPrivatePageCount - 1 }

/-- The per-page loop of `RemapToZero` with a success oracle for each
`SH_MMAP` call (`oracle.getD i true`): on the first refused mapping the
function returns -1 immediately — pages already remapped in this batch keep
their new mapping, but no zero bit has been set yet. -/
def RemapToZeroGo (oracle : List Bool) : Nat → List Nat → Pc → Int × Pc
  | _, [], pc => (0, pc)
  | i, a :: rest, pc =>
    if IsCloseToMmapLimit then (-1, pc)
    else
      let pc := { pc with mmapCount := pc.mmapCount + 1 }
      if oracle.getD i true then RemapToZeroGo oracle (i + 1) rest (zeroPageOk pc a)
      else (-1, pc)

/-- `SetMultiBits(zeroPagesBV, start, size)` / `SetBit`: set the zero bit of
every page of the run. -/
def setZeroBits (run : List Nat) (pc : Pc) : Pc :=
  { pc with pages := run.foldl (fun ps a =>
      pset ps a { pget ps a with zero := true }) pc.pages }

/-- `RemapToZero(start, size)`: remap each page of the run onto frame 0 of
the shared file; only after the WHOLE loop succeeds are the zero bits of the
run set (source lines 2379–2406: `SetMultiBits`/`SetBit` follow the loop). -/
def RemapToZero (oracle : List Bool) (run : List Nat) (pc : Pc) : Int × Pc :=
  let res := RemapToZeroGo oracle 0 run pc
  if res.1 = 0 then (0, setZeroBits run res.2) else res

/-! ## MergeManyPages (SharedHeap.cpp lines 2453–2617)

The loop keeps one open run of contiguous pages in exactly one of three
categories (`last_page_zero` / `last_page_moveable` / `last_page_shareable`
with `mergeable_start_addr`); `cat = none` models a NULL start address, and
`run` lists the pages from the start address up to the current page — the
assertions at lines 2508–2519 state exactly this mutual exclusion.
`FLUSH_OUTSTANDING_MERGES` transitions the whole run in one batch.  The
4 MiB compare window (`mmap_buffer`, `index`, `curr_page_ptr`) maps this
process's view of the shared frames of the pages being scanned, so the
window compare reads the page's `sharedContent`.  Kernel calls inside the
pass are modelled on their success path; the failure path of `RemapToZero`
is analysed separately. -/

inductive RunCat where
  | zeroRun : RunCat        -- last_page_zero
  | moveableRun : RunCat    -- last_page_moveable
  | shareableRun : RunCat   -- last_page_shareable
deriving Repr, DecidableEq

structure MMAcc where
  pc : Pc
  run : List Nat
  cat : Option RunCat
  bufLive : Bool    -- mmap_buffer != NULL
  index : Nat       -- byte offset into the compare window
  merged : Nat      -- counter_pages_merged
deriving Repr, DecidableEq

/-- `FLUSH_OUTSTANDING_MERGES`: transition the open run (shareable →
`RemapRegion`, moveable → `CopyAndRemapRegion`, zero → `RemapToZero`), count
the shareable and zero pages as merged, reset the flags and the start. -/
def flushRun (acc : MMAcc) : MMAcc :=
  match acc.cat with
  | none => { acc with run := [] }
  | some c =>
    let pc :=
      match c with
      | RunCat.shareableRun => RemapRegion acc.run acc.pc
      | RunCat.moveableRun => CopyAndRemapRegion acc.run acc.pc
      | RunCat.zeroRun => (RemapToZero (acc.run.map fun _ => true) acc.run acc.pc).2
    let merged :=
      match c with
      | RunCat.moveableRun => acc.merged
      | _ => acc.merged + acc.run.length
    { acc with pc := pc, run := [], cat := none, merged := merged }

/-- One iteration of the `MergeManyPages` scan at page address `a`:
maintain the compare window, then classify the page — skip (after flushing)
when it is uninitialized, already zero-mapped, or already held; open/extend
a zero run when its bytes equal the zero page; else a moveable run when no
other sibling holds the frame; else compare against the shared frame through
the window and open/extend a shareable run on a match, flushing otherwise. -/
def mmStep (acc : MMAcc) (a : Nat) : MMAcc :=
  let acc :=
    if acc.index = 0 ∨ acc.index = 4 * 1024 * 1024 then
      let pc := acc.pc
      let pc := if acc.bufLive then { pc with mmapCount := pc.mmapCount - 1 } else pc
      let pc := { pc with mmapCount := pc.mmapCount + 1 }
      { acc with pc := pc, bufLive := true, index := 0 }
    else acc
  let acc := { acc with index := acc.index + PAGE_SIZE }
  let pg := pget acc.pc.pages a
  if ¬ pg.initialized then flushRun acc
  else if pg.zero then flushRun acc
  else if pg.sharing then flushRun acc
  else if pg.content = 0 then
    if acc.cat = some RunCat.zeroRun then { acc with run := acc.run ++ [a] }
    else
      let acc := flushRun acc
      { acc with run := [a], cat := some RunCat.zeroRun }
  else if pg.otherCount = 0 then
    if acc.cat = some RunCat.moveableRun then { acc with run := acc.run ++ [a] }
    else
      let acc := flushRun acc
      { acc with run := [a], cat := some RunCat.moveableRun }
  else
    let acc := if acc.cat ≠ some RunCat.shareableRun then flushRun acc else acc
    if pg.content = pg.sharedContent then
      if acc.run.isEmpty then { acc with run := [a], cat := some RunCat.shareableRun }
      else { acc with run := acc.run ++ [a] }
    else flushRun acc

/-- `MergeManyPages(start_addr, size, data)`: scan the region's pages under
the node mutex, unmap the compare window, flush the final run, and return
the number of pages merged in this call. -/
def MergeManyPages (start_addr size : Nat) (pc : Pc) : Nat × Pc :=
  let acc0 : MMAcc := ⟨pc, [], none, false, 0, 0⟩
  let acc := (regionPages start_addr size).foldl mmStep acc0
  let acc :=
    if acc.bufLive then
      { acc with pc := { acc.pc with mmapCount := acc.pc.mmapCount - 1 } }
    else acc
  let acc := flushRun acc
  (acc.merged, acc.pc)

/-- `MergeNode2(key, value, data, isDirty)` under the build flags in force
(`COLLECT_MALLOC_STAT` set, `PART_BLOCK_MERGE_STAT` unset): a dirty region
is merged page-by-page and its dirty flag cleared; a clean region is left
alone.  `TranslateMmapAddr(addr)` is nonzero for every in-window address and
aborts the process otherwise, so its skip branch is never taken for the
addresses the allocator hands out; `IsCloseToMmapLimit` is constant false. -/
def MergeNode2 (addr size : Nat) (dirty : Bool) (pc : Pc) : Bool × Pc :=
  if IsCloseToMmapLimit then (dirty, pc)
  else if dirty then (false, (MergeManyPages addr size pc).2)
  else (dirty, pc)

/-- One merge pass: `TraverseAVL(allocRecord, MergeNode2)` visits the index
in order, handing each visitor a pointer to the node's dirty flag. -/
def mergePass : AVLNode → Pc → AVLNode × Pc
  | AVLNode.nil, pc => (AVLNode.nil, pc)
  | AVLNode.node k v h d l r, pc =>
    let resL := mergePass l pc
    let resN := MergeNode2 k v d resL.2
    let resR := mergePass r resN.2
    (AVLNode.node k v h resN.1 resL.1 resR.1, resR.2)

/-! ## Policy controller and public interface -/

inductive MergeMetric where
  | MERGE_DISABLED : MergeMetric
  | ALLOC_FREQUENCY : MergeMetric
  | THRESHOLD : MergeMetric
  | BUFFERED : MergeMetric
deriving Repr, DecidableEq

/-- The per-process library state relevant to the public entry points:
lifecycle flags, merge-policy tunables and their mutable counters, the
allocation index, and the page/counter state. -/
structure LayerSt where
  isMPIInitialized : Bool
  isMPIFinalized : Bool
  notMPIApp : Bool          -- NOT_MPI_APP environment knob
  mergeMetric : MergeMetric
  countDownTimer : Int      -- static counter in MergeByTHRESHOLD, starts at 100
  mergeMinMemTh : Int       -- threshold (in pages after CheckEnv scaling)
  mallocRefCounter : Nat    -- unsigned long counter of allocations
  mallocRefFreq : Nat       -- MALLOC_MERGE_FREQ (positive, checked by CheckEnv)
  tree : AVLNode            -- allocRecord
  pc : Pc
deriving Repr, DecidableEq

/-- `CheckMPIInitialized`: the layer is usable once the MPI_Init hook ran or
the NOT_MPI_APP knob is set. -/
def CheckMPIInitialized (st : LayerSt) : Bool := st.isMPIInitialized || st.notMPIApp

/-- `MergeByTHRESHOLD` (lines 1765–1837): a static countdown gates the whole
body — only every 100th call proceeds past it; then, under `SHARED_STATS`,
the merge scan runs only when `*allProcPrivatePageCount + *sharedPageCount`
is at least `mergeMinMemTh`, in which case the threshold is first raised to
that observed value.  (`StoreMemUsageStat` and the profiler/report blocks
touch only the statistics buffer.) -/
def MergeByTHRESHOLD (st : LayerSt) : LayerSt :=
  let c := st.countDownTimer - 1
  if c = 0 then
    let st := { st with countDownTimer := 100 }
    let observed := st.pc.allProcPrivatePageCount + st.pc.sharedPageCount
    if observed ≥ st.mergeMinMemTh then
      let st := { st with mergeMinMemTh := observed }
      let res := mergePass st.tree st.pc
      { st with tree := res.1, pc := res.2 }
    else st
  else { st with countDownTimer := c }

/-- Did a call to `MergeByTHRESHOLD` reach the merge scan?  (Both guard
conditions of the source, made explicit.) -/
def mergeByTHRESHOLDRan (st : LayerSt) : Bool :=
  decide (st.countDownTimer - 1 = 0) &&
    decide (st.pc.allProcPrivatePageCount + st.pc.sharedPageCount ≥ st.mergeMinMemTh)

/-- `MergeByALLOC_FREQUENCY` (lines 1693–1758): every `mallocRefFreq`-th
call (profiler disabled) runs `TraverseAVL(MergeNode2)` and resets the
allocation counter. -/
def MergeByALLOC_FREQUENCY (st : LayerSt) : LayerSt :=
  let cnt := st.mallocRefCounter + 1
  if cnt % st.mallocRefFreq = 0 then
    let res := mergePass st.tree st.pc
    { st with mallocRefCounter := 0, tree := res.1, pc := res.2 }
  else { st with mallocRefCounter := cnt }

/-- `size_t` modulus. -/
def SIZE_T_MOD : Nat := 2 ^ 64

/-- `size = ((sz + PAGE_SIZE - 1) / PAGE_SIZE) * PAGE_SIZE` in `size_t`
arithmetic (the sum can wrap for `sz` within a page of 2^64). -/
def roundSize (sz : Nat) : Nat :=
  (((sz + PAGE_SIZE - 1) % SIZE_T_MOD) / PAGE_SIZE) * PAGE_SIZE

/-- `ShmMallocWrapper(sz)` (lines 2764–2847).  `oracle` is the address the
kernel returns for the anonymous mapping (`none` = MAP_FAILED; a
zero-length request always fails).  Under `COLLECT_MALLOC_STAT` the mapping
is requested with `PROT_READ` only, the THRESHOLD trigger in the switch is
compiled out, and the SHARED_STATS counter bumps are compiled out. -/
def ShmMallocWrapper (oracle : Option Nat) (sz : Nat) (st : LayerSt) :
    Option Nat × LayerSt :=
  if ¬ CheckMPIInitialized st then (none, st)
  else if st.isMPIFinalized then (none, st)
  else if IsCloseToMmapLimit then (none, st)
  else
    let size := roundSize sz
    let st :=
      match st.mergeMetric with
      | MergeMetric.ALLOC_FREQUENCY => MergeByALLOC_FREQUENCY st
      | _ => st
    let st := { st with pc := { st.pc with mmapCount := st.pc.mmapCount + 1 } }
    match (if size = 0 then none else oracle) with
    | none => (none, st)
    | some addr =>
      let st := { st with tree := AVLNode.InsertAVL st.tree addr size }
      let newPages := (regionPages addr size).foldl (fun ps a =>
        let pg1 := { pget ps a with mapping := Mapping.privateAnon,
                                    prot := Prot.readOnly, content := 0 }
        pset ps a pg1) st.pc.pages
      let st := { st with pc := { st.pc with pages := newPages } }
      (some addr, st)

/-- `ShmGetSizeWrapper(ptr)` (lines 2898–2903): 0 before initialization,
else the exact-base lookup (`AspaceAvlSearchWrapper` returns 0 = NULL when
the base is not recorded). -/
def ShmGetSizeWrapper (ptr : Nat) (st : LayerSt) : Nat :=
  if ¬ CheckMPIInitialized st then 0
  else (AVLNode.FindAVL st.tree ptr).getD 0

/-- The body of the per-page loop in `ShmFreeWrapper` (lines 2932–3017),
threading the `last_page_shared` flag.  The initialized bit is cleared
unconditionally; for a page that had it set, the zero bit is cleared and
the holder-count cases adjust the aggregate counters before the holder bit
is cleared. -/
def freePageStep (s : Pc × Bool) (a : Nat) : Pc × Bool :=
  let pc := s.1
  let last_page_shared := s.2
  let pg := pget pc.pages a
  let pc := { pc with pages := pset pc.pages a { pg with initialized := false } }
  if pg.initialized then
    let is_zero := pg.zero
    let pg1 := { pg with initialized := false, zero := false }
    let pc := { pc with pages := pset pc.pages a pg1 }
    let is_shared := pg.sharing
    let pc := { pc with baseCaseTotalPageCount := pc.baseCaseTotalPageCount - 1 }
    let pc :=
      if last_page_shared ∧ ¬ is_shared then
        { pc with mmapCount := pc.mmapCount - 1 }
      else pc
    if is_zero then
      ({ pc with zeroPageCount := pc.zeroPageCount - 1,
                 mmapCount := pc.mmapCount - 1 }, false)
    else if is_shared then
      let cnt := countSharingProcs pg
      let pc :=
        if cnt = 1 then
          { pc with allProcPrivatePageCount := pc.allProcPrivatePageCount - 1 }
        else if cnt = 2 then
          { pc with sharedPageCount := pc.sharedPageCount - 1,
                    allProcPrivatePageCount := pc.allProcPrivatePageCount + 1 }
        else pc
      let pg2 := { pg with initialized := false, zero := false, sharing := false }
      ({ pc with pages := pset pc.pages a pg2 }, true)
    else
      ({ pc with allProcPrivatePageCount := pc.allProcPrivatePageCount - 1 }, false)
  else
    if last_page_shared then ({ pc with mmapCount := pc.mmapCount - 1 }, false)
    else (pc, last_page_shared)

/-- `ShmFreeWrapper(ptr)` (lines 2906–3051): -1 before initialization; the
region is removed from the index first (`AspaceAvlRemoveWrapper`), -1 when
nothing was recorded (`size <= 0`); otherwise the region is unmapped
(`ASSERTX(SH_UNMAP(...))` — the assert's argument is evaluated), the
per-page bookkeeping loop runs (or, with merging disabled, only the
initialized bits and the two aggregate counters are rewound), the trailing
THRESHOLD trigger is compiled out, and 1 is returned. -/
def ShmFreeWrapper (ptr : Nat) (st : LayerSt) : Int × LayerSt :=
  if ¬ CheckMPIInitialized st then (-1, st)
  else
    let res := AVLNode.RemoveAVL st.tree ptr
    let st := { st with tree := res.2 }
    let size : Nat := (res.1).getD 0
    if size = 0 then (-1, st)
    else
      let unmappedPages := (regionPages ptr size).foldl (fun ps a =>
        pset ps a { pget ps a with mapping := Mapping.unmapped }) st.pc.pages
      let pcU := { st.pc with mmapCount := st.pc.mmapCount - 1, pages := unmappedPages }
      let st := { st with pc := pcU }
      let st :=
        if st.mergeMetric ≠ MergeMetric.MERGE_DISABLED then
          let res2 := (regionPages ptr size).foldl freePageStep (st.pc, false)
          { st with pc := res2.1 }
        else
          let pc2 := (regionPages ptr size).foldl (fun pc a =>
            let pg := pget pc.pages a
            let pc := { pc with pages := pset pc.pages a { pg with initialized := false } }
            if pg.initialized then
              { pc with baseCaseTotalPageCount := pc.baseCaseTotalPageCount - 1,
                        allProcPrivatePageCount := pc.allProcPrivatePageCount - 1 }
            else pc) st.pc
          { st with pc := pc2 }
      (1, st)

/-- `int32_t` modulus. -/
def INT32_MOD : Nat := 2 ^ 32

/-- Value of the `int32_t` holding the low 32 bits of `n`. -/
def toInt32 (n : Nat) : Int :=
  let m := n % INT32_MOD
  if m < 2 ^ 31 then (m : Int) else (m : Int) - (INT32_MOD : Int)

/-- The `size_t` that `memcpy` receives when the C code passes the `int32_t`
byte count: a negative value is sign-extended, i.e. taken modulo 2^64. -/
def memcpyLen (n : Nat) : Nat := ((toInt32 n) % (SIZE_T_MOD : Int)).toNat

/-- `ShmReallocWrapper(ptr, size)` (lines 2852–2895).  Returns the resulting
pointer, the new state, and the byte count handed to `memcpy` (`none` when
no copy happens).  `oracle` feeds the inner `ShmMallocWrapper`; `ptOracle`
models the `ptmalloc` fallback of the external small-object heap.  The C
code stores `min(old_size, size)` in an `int32_t` before the copy.  (The
byte copy writes through freshly mapped read-only pages; the write faults
it raises belong to the fault-handler component and are outside this
function's own effects.) -/
def ShmReallocWrapper (oracle ptOracle : Option Nat) (ptr size : Nat)
    (st : LayerSt) : Option Nat × LayerSt × Option Nat :=
  if ¬ CheckMPIInitialized st then (none, st, none)
  else
    let old_size := (AVLNode.FindAVL st.tree ptr).getD 0
    if old_size = 0 then (none, st, none)
    else if old_size ≥ size then (some ptr, st, none)
    else
      let res := ShmMallocWrapper oracle size st
      let st := res.2
      let new_ptr :=
        match res.1 with
        | some p => some p
        | none => ptOracle
      match new_ptr with
      | none => (some ptr, st, none)
      | some np =>
        let copied := memcpyLen (min old_size size)
        let res2 := ShmFreeWrapper ptr st
        (some np, res2.2, some copied)

/-! ## Sibling join and bitmap width (InitAddrSpace / AllocateSharedMetadata) -/

/-- Width selection in `InitAddrSpace` (lines 414–420): `numProc` becomes 8
for up to 8 detected cores, 16 for up to 16, and the library dies (`die`)
beyond that.  This is the only refusal in the init/join path. -/
def numProcOfCores (cores : Nat) : Option Nat :=
  if cores ≤ 8 then some 8
  else if cores ≤ 16 then some 16
  else none

/-- Joining in `AllocateSharedMetadata` (lines 627–659): the first opener of
the backing file sets `*aliveProcs = 1`, every later joiner increments it;
the joiner then takes `myRank = *aliveProcs - 1` and uses bit position
`myRank` in every holder-bitmap entry from then on.  No comparison against
the bitmap width is made.  Returns (new alive count, assigned rank). -/
def joinRank (aliveBefore : Nat) (initShared : Bool) : Nat × Nat :=
  let alive := if initShared then 1 else aliveBefore + 1
  (alive, alive - 1)

/-- `currProcMask = 0x01 << myRank`. -/
def currProcMaskOf (rank : Nat) : Nat := 1 <<< rank

/-- The alive count after `n` successive joins on a fresh node (the first
joiner finds the file absent and initializes it). -/
def aliveAfterJoins : Nat → Nat
  | 0 => 0
  | n + 1 => (joinRank (aliveAfterJoins n) (aliveAfterJoins n = 0)).1

/-- The rank the `n`-th joiner receives (`n ≥ 1`). -/
def rankOfJoiner (n : Nat) : Nat :=
  (joinRank (aliveAfterJoins (n - 1)) (aliveAfterJoins (n - 1) = 0)).2

/-! ## Operation sequences (used to state whole-run invariants) -/

/-- An index operation: what `AspaceAvlInsertWrapper` / `AspaceAvlRemoveWrapper`
perform on the allocation index. -/
inductive TreeOp where
  | ins (k v : Nat) : TreeOp
  | del (k : Nat) : TreeOp
deriving Repr, DecidableEq

/-- Apply a sequence of index operations to the empty index. -/
def applyTreeOps (ops : List TreeOp) : AVLNode :=
  ops.foldl (fun t op =>
    match op with
    | TreeOp.ins k v => AVLNode.InsertAVL t k v
    | TreeOp.del k => (AVLNode.RemoveAVL t k).2) AVLNode.nil

/-- A public-interface or policy event of one process's run. -/
inductive LayerOp where
  | malloc (oracle : Option Nat) (sz : Nat) : LayerOp
  | free (ptr : Nat) : LayerOp
  | realloc (oracle ptOracle : Option Nat) (ptr size : Nat) : LayerOp
  | mergeThreshold : LayerOp   -- MergeByTHRESHOLD, as invoked by the fault handler
deriving Repr, DecidableEq

def applyLayerOp (st : LayerSt) : LayerOp → LayerSt
  | LayerOp.malloc oracle sz => (ShmMallocWrapper oracle sz st).2
  | LayerOp.free ptr => (ShmFreeWrapper ptr st).2
  | LayerOp.realloc o po ptr size => (ShmReallocWrapper o po ptr size st).2.1
  | LayerOp.mergeThreshold => MergeByTHRESHOLD st

def applyLayerOps (st : LayerSt) (ops : List LayerOp) : LayerSt :=
  ops.foldl applyLayerOp st

/-- Every region of the index has a clear dirty flag. -/
def regionsClean : AVLNode → Bool
  | AVLNode.nil => true
  | AVLNode.node _ _ _ d l r => !d && regionsClean l && regionsClean r

/-! # Theorems -/

/-! ## C4 — bitmap width versus joiner count -/

theorem aliveAfterJoins_eq (n : Nat) : aliveAfterJoins n = n := by
  induction n with
  | zero => rfl
  | succ m ih =>
    simp only [aliveAfterJoins, joinRank, ih]
    cases m <;> simp

/-- C4, counterexample: with 8 detected cores the bitmap entry width is 8,
yet joining is never refused on count — the 9th sibling to join an 8-wide
node is assigned rank 8, whose bit position lies outside the 8-bit bitmap
entry, contradicting the claim that such a join cannot happen. -/
theorem c4_counterexample :
    numProcOfCores 8 = some 8 ∧ rankOfJoiner 9 = 8 ∧ ¬ rankOfJoiner 9 < 8 := by
  refine ⟨by decide, ?_, ?_⟩ <;> simp [rankOfJoiner, aliveAfterJoins_eq, joinRank]

/-- C4 (amended): the only refusal in the init/join path is the core-count
check — `InitAddrSpace` dies exactly when more than 16 cores are detected,
choosing width 8 or 16 otherwise; a joining sibling is assigned index
`alive - 1` with no bound check, so the bit position stays inside the
bitmap entry only under the precondition that at most `width` siblings
join. -/
theorem c4_join_width_amended :
    (∀ cores, numProcOfCores cores = none ↔ 16 < cores) ∧
    (∀ cores w, numProcOfCores cores = some w → w = 8 ∨ w = 16) ∧
    (∀ n, 1 ≤ n → rankOfJoiner n = n - 1) ∧
    (∀ n width, 1 ≤ n → n ≤ width → rankOfJoiner n < width) := by
  have hrank : ∀ n, 1 ≤ n → rankOfJoiner n = n - 1 := by
    intro n hn
    simp only [rankOfJoiner, aliveAfterJoins_eq, joinRank]
    cases n with
    | zero => omega
    | succ m => cases m <;> simp
  refine ⟨?_, ?_, hrank, ?_⟩
  · intro cores
    simp only [numProcOfCores]
    split <;> rename_i h1
    · simp; omega
    · split <;> simp <;> omega
  · intro cores w h
    simp only [numProcOfCores] at h
    split at h
    · simp at h; omega
    · split at h
      · simp at h; omega
      · simp at h
  · intro n width hn hw
    rw [hrank n hn]
    omega

/-- C4, witness for the amended theorem: 3 joiners on a width-8 node; the
third joiner gets rank 2, inside the bitmap entry. -/
theorem c4_join_width_amended_witness :
    numProcOfCores 8 = some 8 ∧ rankOfJoiner 3 = 2 ∧ rankOfJoiner 3 < 8 := by
  refine ⟨by decide, ?_, ?_⟩
  · exact c4_join_width_amended.2.2.1 3 (by decide)
  · exact c4_join_width_amended.2.2.2 3 8 (by decide) (by decide)

/-! ## C2 — aborted merge batches and partial state -/

/-- C2: `RemapToZero` over a two-page batch whose second `SH_MMAP` is
refused by the kernel.  The call aborts with -1, but the first page has
already been remapped onto the canonical zero frame and counted
(`zeroPageCount = 1`) while its zero bit is still clear — the zero bits are
only written after the whole loop (SharedHeap.cpp lines 2403–2406), so the
per-process bookkeeping does NOT agree with the new mapping, contradicting
the claim.  (The caller, `FLUSH_OUTSTANDING_MERGES`, also ignores the -1.) -/
theorem c2_remapToZero_partial_state :
    (RemapToZero [true, false] [4096, 8192]
        ⟨[(4096, ⟨true, false, false, 0, 0, 0, Mapping.privateAnon, Prot.readWrite⟩),
          (8192, ⟨true, false, false, 0, 0, 0, Mapping.privateAnon, Prot.readWrite⟩)],
         0, 0, 2, 2, 2⟩).1 = -1 ∧
    (pget (RemapToZero [true, false] [4096, 8192]
        ⟨[(4096, ⟨true, false, false, 0, 0, 0, Mapping.privateAnon, Prot.readWrite⟩),
          (8192, ⟨true, false, false, 0, 0, 0, Mapping.privateAnon, Prot.readWrite⟩)],
         0, 0, 2, 2, 2⟩).2.pages 4096).mapping = Mapping.zeroFrame ∧
    (pget (RemapToZero [true, false] [4096, 8192]
        ⟨[(4096, ⟨true, false, false, 0, 0, 0, Mapping.privateAnon, Prot.readWrite⟩),
          (8192, ⟨true, false, false, 0, 0, 0, Mapping.privateAnon, Prot.readWrite⟩)],
         0, 0, 2, 2, 2⟩).2.pages 4096).zero = false ∧
    (RemapToZero [true, false] [4096, 8192]
        ⟨[(4096, ⟨true, false, false, 0, 0, 0, Mapping.privateAnon, Prot.readWrite⟩),
          (8192, ⟨true, false, false, 0, 0, 0, Mapping.privateAnon, Prot.readWrite⟩)],
         0, 0, 2, 2, 2⟩).2.zeroPageCount = 1 := by
  decide

/-! ## C10 — pre-initialization sentinels -/

/-- C10: before the layer completes initialization (`isMPIInitialized`
false and the NOT_MPI_APP knob unset), every public entry point is a
state-preserving sentinel: free returns -1, size-of returns 0, realloc
returns null (and malloc returns null), all without touching any state. -/
theorem c10_uninitialized_sentinels (st : LayerSt)
    (h1 : st.isMPIInitialized = false) (h2 : st.notMPIApp = false) :
    (∀ ptr, ShmFreeWrapper ptr st = (-1, st)) ∧
    (∀ ptr, ShmGetSizeWrapper ptr st = 0) ∧
    (∀ o po ptr size, ShmReallocWrapper o po ptr size st = (none, st, none)) ∧
    (∀ o sz, ShmMallocWrapper o sz st = (none, st)) := by
  have hc : CheckMPIInitialized st = false := by
    simp [CheckMPIInitialized, h1, h2]
  refine ⟨?_, ?_, ?_, ?_⟩ <;> intros <;>
    simp [ShmFreeWrapper, ShmGetSizeWrapper, ShmReallocWrapper, ShmMallocWrapper, hc]

/-- C10, witness: a concrete uninitialized state. -/
theorem c10_uninitialized_sentinels_witness :
    (ShmFreeWrapper 4096
      ⟨false, false, false, MergeMetric.THRESHOLD, 100, 2500, 0, 1000,
        AVLNode.node 4096 4096 1 false AVLNode.nil AVLNode.nil,
        ⟨[], 0, 0, 0, 0, 0⟩⟩) =
      (-1, ⟨false, false, false, MergeMetric.THRESHOLD, 100, 2500, 0, 1000,
        AVLNode.node 4096 4096 1 false AVLNode.nil AVLNode.nil,
        ⟨[], 0, 0, 0, 0, 0⟩⟩) ∧
    (ShmGetSizeWrapper 4096
      ⟨false, false, false, MergeMetric.THRESHOLD, 100, 2500, 0, 1000,
        AVLNode.node 4096 4096 1 false AVLNode.nil AVLNode.nil,
        ⟨[], 0, 0, 0, 0, 0⟩⟩) = 0 := by
  have h := c10_uninitialized_sentinels
    ⟨false, false, false, MergeMetric.THRESHOLD, 100, 2500, 0, 1000,
      AVLNode.node 4096 4096 1 false AVLNode.nil AVLNode.nil,
      ⟨[], 0, 0, 0, 0, 0⟩⟩ rfl rfl
  exact ⟨h.1 4096, h.2.1 4096⟩

/-! ## C7 — idempotence of the merge pass -/

/-- `MergeNode2` always leaves the visited region's dirty flag clear. -/
theorem mergeNode2_dirty_false (addr size : Nat) (d : Bool) (pc : Pc) :
    (MergeNode2 addr size d pc).1 = false := by
  cases d <;> simp [MergeNode2, IsCloseToMmapLimit]

/-- A clean region is left untouched by `MergeNode2`. -/
theorem mergeNode2_clean (addr size : Nat) (pc : Pc) :
    MergeNode2 addr size false pc = (false, pc) := by
  simp [MergeNode2, IsCloseToMmapLimit]

/-- After a merge pass every region's dirty flag is clear. -/
theorem mergePass_clean (t : AVLNode) (pc : Pc) :
    regionsClean (mergePass t pc).1 = true := by
  induction t generalizing pc with
  | nil => simp [mergePass, regionsClean]
  | node k v h d l r ihl ihr =>
    simp [mergePass, regionsClean, mergeNode2_dirty_false, ihl, ihr]

/-- A merge pass over an all-clean index changes nothing at all. -/
theorem mergePass_of_clean (t : AVLNode) (pc : Pc) (h : regionsClean t = true) :
    mergePass t pc = (t, pc) := by
  induction t generalizing pc with
  | nil => simp [mergePass]
  | node k v hh d l r ihl ihr =>
    simp only [regionsClean, Bool.and_eq_true, Bool.not_eq_true'] at h
    obtain ⟨⟨hd, hl⟩, hr⟩ := h
    subst hd
    simp [mergePass, ihl _ hl, mergeNode2_clean, ihr _ hr]

/-- C7: the merge pass is idempotent — running
`TraverseAVL(allocRecord, MergeNode2)` twice back-to-back with no
intervening writes leaves everything unchanged: the second pass changes no
bitmap, counter, mapping or dirty flag, because the first pass left every
region's dirty flag clear and clean regions are skipped. -/
theorem c7_merge_idempotent (t : AVLNode) (pc : Pc) :
    mergePass (mergePass t pc).1 (mergePass t pc).2 = mergePass t pc := by
  rw [mergePass_of_clean _ _ (mergePass_clean t pc)]

/-! ## C6 — threshold merge policy -/

/-- `MergeByALLOC_FREQUENCY` never modifies the threshold. -/
theorem mergeByALLOC_FREQUENCY_th (st : LayerSt) :
    (MergeByALLOC_FREQUENCY st).mergeMinMemTh = st.mergeMinMemTh := by
  unfold MergeByALLOC_FREQUENCY
  dsimp only
  split <;> rfl

/-- `ShmMallocWrapper` never modifies the threshold. -/
theorem shmMalloc_th (o : Option Nat) (sz : Nat) (st : LayerSt) :
    (ShmMallocWrapper o sz st).2.mergeMinMemTh = st.mergeMinMemTh := by
  unfold ShmMallocWrapper
  dsimp only
  split
  · rfl
  · split
    · rfl
    · split
      · rfl
      · cases hm : st.mergeMetric <;>
          dsimp only <;>
          split <;>
          simp [mergeByALLOC_FREQUENCY_th]

/-- `ShmFreeWrapper` never modifies the threshold. -/
theorem shmFree_th (ptr : Nat) (st : LayerSt) :
    (ShmFreeWrapper ptr st).2.mergeMinMemTh = st.mergeMinMemTh := by
  unfold ShmFreeWrapper
  dsimp only
  split
  · rfl
  · split
    · rfl
    · split <;> rfl

/-- `ShmReallocWrapper` never modifies the threshold. -/
theorem shmRealloc_th (o po : Option Nat) (ptr size : Nat) (st : LayerSt) :
    (ShmReallocWrapper o po ptr size st).2.1.mergeMinMemTh = st.mergeMinMemTh := by
  unfold ShmReallocWrapper
  dsimp only
  split
  · rfl
  · split
    · rfl
    · split
      · rfl
      · split
        · simp [shmMalloc_th]
        · rename_i np hnp
          have h1 := shmMalloc_th o size st
          have h2 := shmFree_th ptr (ShmMallocWrapper o size st).2
          dsimp only
          omega

/-- The threshold never decreases across one `MergeByTHRESHOLD` call. -/
theorem mergeByTHRESHOLD_th_mono (st : LayerSt) :
    st.mergeMinMemTh ≤ (MergeByTHRESHOLD st).mergeMinMemTh := by
  unfold MergeByTHRESHOLD
  dsimp only
  split
  · split
    · rename_i h2
      simp only [] at h2 ⊢
      exact h2
    · simp
  · simp

/-- C6: the threshold merge policy.  (1) One call never lowers the
threshold.  (2) When the merge scan actually runs (countdown expired and
the combined private+shared page count at least the threshold), that
combined count was at least the threshold and becomes the new threshold —
the self-adjusting high-water mark.  (3) When the guards do not hold, no
scan runs: index, pages and counters, and threshold are unchanged.  (4)
When the downward countdown has not expired, the call only decrements the
countdown — the threshold test is not even evaluated.  (5) The threshold is
monotonically non-decreasing over any whole run of allocator and policy
events. -/
theorem c6_threshold_policy :
    (∀ st : LayerSt, st.mergeMinMemTh ≤ (MergeByTHRESHOLD st).mergeMinMemTh) ∧
    (∀ st : LayerSt, mergeByTHRESHOLDRan st = true →
        st.mergeMinMemTh ≤ st.pc.allProcPrivatePageCount + st.pc.sharedPageCount ∧
        (MergeByTHRESHOLD st).mergeMinMemTh =
          st.pc.allProcPrivatePageCount + st.pc.sharedPageCount) ∧
    (∀ st : LayerSt, mergeByTHRESHOLDRan st = false →
        (MergeByTHRESHOLD st).tree = st.tree ∧
        (MergeByTHRESHOLD st).pc = st.pc ∧
        (MergeByTHRESHOLD st).mergeMinMemTh = st.mergeMinMemTh) ∧
    (∀ st : LayerSt, st.countDownTimer - 1 ≠ 0 →
        MergeByTHRESHOLD st = { st with countDownTimer := st.countDownTimer - 1 }) ∧
    (∀ (st : LayerSt) (ops : List LayerOp),
        st.mergeMinMemTh ≤ (applyLayerOps st ops).mergeMinMemTh) := by
  have hgate : ∀ st : LayerSt, st.countDownTimer - 1 ≠ 0 →
      MergeByTHRESHOLD st = { st with countDownTimer := st.countDownTimer - 1 } := by
    intro st h
    unfold MergeByTHRESHOLD
    dsimp only
    simp [h]
  have hop : ∀ (st : LayerSt) (op : LayerOp),
      st.mergeMinMemTh ≤ (applyLayerOp st op).mergeMinMemTh := by
    intro st op
    cases op with
    | malloc o sz => simp [applyLayerOp, shmMalloc_th]
    | free ptr => simp [applyLayerOp, shmFree_th]
    | realloc o po ptr size => simp [applyLayerOp, shmRealloc_th]
    | mergeThreshold => exact mergeByTHRESHOLD_th_mono st
  refine ⟨mergeByTHRESHOLD_th_mono, ?_, ?_, hgate, ?_⟩
  · intro st h
    simp only [mergeByTHRESHOLDRan, Bool.and_eq_true, decide_eq_true_eq] at h
    obtain ⟨h1, h2⟩ := h
    refine ⟨h2, ?_⟩
    unfold MergeByTHRESHOLD
    dsimp only
    simp [h1, h2]
  · intro st h
    by_cases h1 : st.countDownTimer - 1 = 0
    · have h2 : ¬ st.pc.allProcPrivatePageCount + st.pc.sharedPageCount ≥ st.mergeMinMemTh := by
        intro hge
        simp [mergeByTHRESHOLDRan, h1, hge] at h
      unfold MergeByTHRESHOLD
      dsimp only
      rw [if_pos h1, if_neg h2]
      exact ⟨rfl, rfl, rfl⟩
    · rw [hgate st h1]
      exact ⟨rfl, rfl, rfl⟩
  · intro st ops
    induction ops generalizing st with
    | nil => simp [applyLayerOps]
    | cons op rest ih =>
      calc st.mergeMinMemTh ≤ (applyLayerOp st op).mergeMinMemTh := hop st op
        _ ≤ (applyLayerOps (applyLayerOp st op) rest).mergeMinMemTh := ih _
        _ = (applyLayerOps st (op :: rest)).mergeMinMemTh := by simp [applyLayerOps]

/-- C6, witness: a state with the countdown at 1 and the observed count 8
above the threshold 5 — the scan runs and the threshold becomes 8; and a
state with countdown 7 is only decremented. -/
theorem c6_threshold_policy_witness :
    (MergeByTHRESHOLD
      ⟨true, false, false, MergeMetric.THRESHOLD, 1, 5, 0, 1000, AVLNode.nil,
        ⟨[], 0, 1, 7, 9, 0⟩⟩).mergeMinMemTh = 8 ∧
    MergeByTHRESHOLD
      ⟨true, false, false, MergeMetric.THRESHOLD, 7, 5, 0, 1000, AVLNode.nil,
        ⟨[], 0, 1, 7, 9, 0⟩⟩ =
      ⟨true, false, false, MergeMetric.THRESHOLD, 6, 5, 0, 1000, AVLNode.nil,
        ⟨[], 0, 1, 7, 9, 0⟩⟩ := by
  constructor
  · have h := (c6_threshold_policy.2.1
      ⟨true, false, false, MergeMetric.THRESHOLD, 1, 5, 0, 1000, AVLNode.nil,
        ⟨[], 0, 1, 7, 9, 0⟩⟩ (by decide)).2
    simpa using h
  · have h := c6_threshold_policy.2.2.2.1
      ⟨true, false, false, MergeMetric.THRESHOLD, 7, 5, 0, 1000, AVLNode.nil,
        ⟨[], 0, 1, 7, 9, 0⟩⟩ (by decide)
    simpa using h

/-! ## C1 — return value of free -/

/-- C1, counterexample: freeing an address the layer owns succeeds, but
`ShmFreeWrapper` returns 1 — as its own header documentation in Globals.h
states ("-1 if not allocated using SH_MMAP, 1 otherwise") — not 0 as the
claim says. -/
theorem c1_counterexample :
    (ShmFreeWrapper 4096
      ⟨true, false, false, MergeMetric.THRESHOLD, 100, 2500, 0, 1000,
        AVLNode.node 4096 4096 1 false AVLNode.nil AVLNode.nil,
        ⟨[], 0, 0, 0, 0, 1⟩⟩).1 = 1 ∧
    ¬ (ShmFreeWrapper 4096
      ⟨true, false, false, MergeMetric.THRESHOLD, 100, 2500, 0, 1000,
        AVLNode.node 4096 4096 1 false AVLNode.nil AVLNode.nil,
        ⟨[], 0, 0, 0, 0, 1⟩⟩).1 = 0 := by
  decide

/-- C1 (amended): once the layer is initialized, `ShmFreeWrapper` returns
the positive value 1 when `addr` is owned by the layer (present in the
allocation index with a nonzero recorded size) and the negative sentinel
-1 when it is not, so the caller may fall through to the small-object
allocator exactly on a negative result — the success value is 1, not 0. -/
theorem c1_free_result (st : LayerSt) (ptr : Nat)
    (hinit : CheckMPIInitialized st = true) :
    ((ShmFreeWrapper ptr st).1 = 1 ∨ (ShmFreeWrapper ptr st).1 = -1) ∧
    ((ShmFreeWrapper ptr st).1 = 1 ↔
        ∃ s, (AVLNode.RemoveAVL st.tree ptr).1 = some s ∧ 0 < s) := by
  unfold ShmFreeWrapper
  dsimp only
  rw [if_neg (by simp [hinit])]
  rcases h : (AVLNode.RemoveAVL st.tree ptr).1 with _ | s
  · simp [h]
  · by_cases hs : s = 0
    · subst hs
      simp [h]
    · simp [h, hs, Nat.pos_of_ne_zero hs]

/-- C1, witness for the amended theorem: the owned base 4096 frees with
result 1; the unknown address 999 yields -1. -/
theorem c1_free_result_witness :
    (ShmFreeWrapper 4096
      ⟨true, false, false, MergeMetric.THRESHOLD, 100, 2500, 0, 1000,
        AVLNode.node 4096 4096 1 false AVLNode.nil AVLNode.nil,
        ⟨[], 0, 0, 0, 0, 1⟩⟩).1 = 1 ∧
    (ShmFreeWrapper 999
      ⟨true, false, false, MergeMetric.THRESHOLD, 100, 2500, 0, 1000,
        AVLNode.node 4096 4096 1 false AVLNode.nil AVLNode.nil,
        ⟨[], 0, 0, 0, 0, 1⟩⟩).1 = -1 := by
  have h1 := c1_free_result
    ⟨true, false, false, MergeMetric.THRESHOLD, 100, 2500, 0, 1000,
      AVLNode.node 4096 4096 1 false AVLNode.nil AVLNode.nil,
      ⟨[], 0, 0, 0, 0, 1⟩⟩ 4096 (by decide)
  have h2 := c1_free_result
    ⟨true, false, false, MergeMetric.THRESHOLD, 100, 2500, 0, 1000,
      AVLNode.node 4096 4096 1 false AVLNode.nil AVLNode.nil,
      ⟨[], 0, 0, 0, 0, 1⟩⟩ 999 (by decide)
  refine ⟨h1.2.mpr ⟨4096, by decide, by decide⟩, ?_⟩
  rcases h2.1 with h | h
  · exfalso
    rcases h2.2.mp h with ⟨s, hs, _⟩
    have hnone : (AVLNode.RemoveAVL
        (AVLNode.node 4096 4096 1 false AVLNode.nil AVLNode.nil) 999).1 = none := by
      decide
    dsimp only at hs
    rw [hnone] at hs
    exact Option.noConfusion hs
  · exact h

/-! ## In-order invariance of the AVL restructuring operations -/

namespace AVLNode

theorem inorder_rotateSingleRight (t : AVLNode) :
    (RotateSingleRight t).inorder = t.inorder := by
  cases t with
  | nil => rfl
  | node ek ev eh ed l c =>
    cases l with
    | nil => rfl
    | node dk dv dh dd a b => simp [RotateSingleRight, inorder]

theorem inorder_rotateSingleLeft (t : AVLNode) :
    (RotateSingleLeft t).inorder = t.inorder := by
  cases t with
  | nil => rfl
  | node dk dv dh dd a r =>
    cases r with
    | nil => rfl
    | node ek ev eh ed b c => simp [RotateSingleLeft, inorder]

theorem inorder_rotateDoubleRight (t : AVLNode) :
    (RotateDoubleRight t).inorder = t.inorder := by
  cases t with
  | nil => rfl
  | node k v h d l r =>
    simp [RotateDoubleRight, inorder_rotateSingleRight, inorder, inorder_rotateSingleLeft]

theorem inorder_rotateDoubleLeft (t : AVLNode) :
    (RotateDoubleLeft t).inorder = t.inorder := by
  cases t with
  | nil => rfl
  | node k v h d l r =>
    simp [RotateDoubleLeft, inorder_rotateSingleLeft, inorder, inorder_rotateSingleRight]

theorem inorder_reheight (t : AVLNode) : (reheight t).inorder = t.inorder := by
  cases t <;> rfl

theorem inorder_balance (t : AVLNode) : (Balance t).inorder = t.inorder := by
  cases t with
  | nil => rfl
  | node k v h d l r =>
    unfold Balance
    dsimp only
    rw [inorder_reheight]
    split_ifs <;> first
      | rfl
      | exact inorder_rotateDoubleRight _
      | exact inorder_rotateSingleRight _
      | exact inorder_rotateDoubleLeft _
      | exact inorder_rotateSingleLeft _

/-- A fresh key (absent from the index) is present after `Insert`. -/
theorem mem_inorder_insert_self (t : AVLNode) (k v : Nat)
    (h : ∀ p ∈ t.inorder, p.1 ≠ k) : (k, v) ∈ (Insert t k v).inorder := by
  induction t with
  | nil => simp [Insert, newLeaf, inorder]
  | node key val hh d l r ihl ihr =>
    by_cases h1 : k < key
    · cases l with
      | nil => simp [Insert, h1, inorder_balance, inorder, newLeaf]
      | node a b c dd e f =>
        have hl : ∀ p ∈ (AVLNode.node a b c dd e f).inorder, p.1 ≠ k := by
          intro p hp
          apply h p
          simp only [inorder, List.mem_append, List.mem_cons] at hp ⊢
          tauto
        simp only [Insert, if_pos h1, inorder_balance, inorder, List.mem_append]
        exact Or.inl (ihl hl)
    · by_cases h2 : key < k
      · cases r with
        | nil => simp [Insert, h1, h2, inorder_balance, inorder, newLeaf]
        | node a b c dd e f =>
          have hr : ∀ p ∈ (AVLNode.node a b c dd e f).inorder, p.1 ≠ k := by
            intro p hp
            apply h p
            simp only [inorder, List.mem_append, List.mem_cons] at hp ⊢
            tauto
          simp only [Insert, if_neg h1, if_pos h2, inorder_balance, inorder,
            List.mem_append, List.mem_cons]
          exact Or.inr (Or.inr (ihr hr))
      · exfalso
        have hk : key = k := by omega
        exact h (key, val) (by simp [inorder]) hk

theorem mem_inorder_insertAVL_self (t : AVLNode) (k v : Nat)
    (h : ∀ p ∈ t.inorder, p.1 ≠ k) : (k, v) ∈ (InsertAVL t k v).inorder := by
  rw [InsertAVL, inorder_balance]
  exact mem_inorder_insert_self t k v h

end AVLNode

/-! ## Page-map helper lemmas -/

theorem pget_pset_same (ps : List (Nat × PageSt)) (a : Nat) (pg : PageSt) :
    pget (pset ps a pg) a = pg := by
  induction ps with
  | nil => simp [pset, pget]
  | cons hd tl ih =>
    rcases hd with ⟨b, p⟩
    by_cases hb : b = a
    · simp [pset, pget, hb]
    · simp [pset, pget, hb, ih]

theorem pget_pset_ne (ps : List (Nat × PageSt)) (a b : Nat) (pg : PageSt)
    (h : b ≠ a) : pget (pset ps a pg) b = pget ps b := by
  have hab : a ≠ b := fun hh => h hh.symm
  induction ps with
  | nil => simp [pset, pget, hab]
  | cons hd tl ih =>
    rcases hd with ⟨c, p⟩
    by_cases hc : c = a
    · subst hc
      simp [pset, pget, hab]
    · by_cases hcb : c = b
      · subst hcb
        simp [pset, pget, hc]
      · simp [pset, pget, hc, hcb, ih]

/-- Folding the fresh-page initialization of `ShmMallocWrapper` over a run
does not change pages outside the run. -/
theorem mallocFold_pget_not_mem (run : List Nat) (ps : List (Nat × PageSt))
    (a : Nat) (h : a ∉ run) :
    pget (run.foldl (fun ps a =>
        pset ps a
          { pget ps a with
              mapping := Mapping.privateAnon, prot := Prot.readOnly, content := 0 }) ps) a
      = pget ps a := by
  induction run generalizing ps with
  | nil => rfl
  | cons b rest ih =>
    simp only [List.mem_cons, not_or] at h
    simp only [List.foldl_cons]
    rw [ih _ h.2, pget_pset_ne _ _ _ _ h.1]

/-- Every page of the run is a fresh read-only private anonymous zero page
after the fresh-page initialization of `ShmMallocWrapper`. -/
theorem mallocFold_pget_mem (run : List Nat) (ps : List (Nat × PageSt))
    (a : Nat) (ha : a ∈ run) (hnd : run.Nodup) :
    (pget (run.foldl (fun ps a =>
        pset ps a
          { pget ps a with
              mapping := Mapping.privateAnon, prot := Prot.readOnly, content := 0 }) ps) a).mapping
        = Mapping.privateAnon ∧
    (pget (run.foldl (fun ps a =>
        pset ps a
          { pget ps a with
              mapping := Mapping.privateAnon, prot := Prot.readOnly, content := 0 }) ps) a).prot
        = Prot.readOnly ∧
    (pget (run.foldl (fun ps a =>
        pset ps a
          { pget ps a with
              mapping := Mapping.privateAnon, prot := Prot.readOnly, content := 0 }) ps) a).content
        = 0 := by
  induction run generalizing ps with
  | nil => cases ha
  | cons b rest ih =>
    rcases List.nodup_cons.mp hnd with ⟨hb, hnd'⟩
    simp only [List.foldl_cons]
    rcases List.mem_cons.mp ha with rfl | ha'
    · rw [mallocFold_pget_not_mem _ _ _ hb, pget_pset_same]
      exact ⟨rfl, rfl, rfl⟩
    · exact ih _ ha' hnd'

/-- The page addresses of a region are pairwise distinct. -/
theorem regionPages_nodup (start size : Nat) : (regionPages start size).Nodup := by
  unfold regionPages PAGE_SIZE
  refine List.Nodup.map ?_ (List.nodup_range _)
  intro i j hij
  dsimp only at hij
  omega

/-- Arithmetic facts about the page rounding: whenever the rounded size is
nonzero (i.e. the `size_t` sum did not wrap), it is the least multiple of
the page size at least `sz`. -/
theorem roundSize_props (sz : Nat) (hsz : sz < SIZE_T_MOD) (h : roundSize sz ≠ 0) :
    roundSize sz % PAGE_SIZE = 0 ∧ sz ≤ roundSize sz ∧ roundSize sz < sz + PAGE_SIZE := by
  unfold roundSize PAGE_SIZE SIZE_T_MOD at *
  by_cases hw : sz + 4096 - 1 < 2 ^ 64
  · rw [Nat.mod_eq_of_lt hw] at h ⊢
    have hdm := Nat.div_add_mod (sz + 4096 - 1) 4096
    have hm := Nat.mod_lt (sz + 4096 - 1) (y := 4096) (by norm_num)
    refine ⟨Nat.mul_mod_left _ _, ?_, ?_⟩ <;> omega
  · exfalso
    apply h
    have hlt : (sz + 4096 - 1) % 2 ^ 64 < 4096 := by omega
    rw [Nat.div_eq_of_lt hlt, Nat.zero_mul]

/-! ## C9 — allocation path -/

/-- A merge pass rewrites only dirty flags, pages and counters: the
recorded (base, size) pairs of the index are untouched. -/
theorem mergePass_inorder (t : AVLNode) (pc : Pc) :
    ((mergePass t pc).1).inorder = t.inorder := by
  induction t generalizing pc with
  | nil => rfl
  | node k v h d l r ihl ihr => simp [mergePass, AVLNode.inorder, ihl, ihr]

/-- `MergeByALLOC_FREQUENCY` leaves the recorded regions unchanged. -/
theorem mergeByALLOC_FREQUENCY_inorder (st : LayerSt) :
    (MergeByALLOC_FREQUENCY st).tree.inorder = st.tree.inorder := by
  unfold MergeByALLOC_FREQUENCY
  dsimp only
  split
  · exact mergePass_inorder _ _
  · rfl

/-- C9: the allocation path.  `ShmMallocWrapper` returns null when the
layer has not completed initialization or is in teardown; otherwise, when
the kernel grants the anonymous mapping at a (necessarily fresh) address,
the request is rounded up to the least page-size multiple of `sz`, a
mapping of exactly that rounded size is created — anonymous, private, and
read-only — and the region is recorded in the allocation index. -/
theorem c9_malloc_contract (st : LayerSt) (oracle : Option Nat) (sz : Nat) :
    ((CheckMPIInitialized st = false ∨ st.isMPIFinalized = true) →
        ShmMallocWrapper oracle sz st = (none, st)) ∧
    (∀ addr st', CheckMPIInitialized st = true → st.isMPIFinalized = false →
        sz < SIZE_T_MOD →
        (∀ p ∈ st.tree.inorder, p.1 ≠ addr) →
        ShmMallocWrapper oracle sz st = (some addr, st') →
        (addr, roundSize sz) ∈ st'.tree.inorder ∧
        roundSize sz % PAGE_SIZE = 0 ∧ sz ≤ roundSize sz ∧
        roundSize sz < sz + PAGE_SIZE ∧
        (∀ a ∈ regionPages addr (roundSize sz),
            (pget st'.pc.pages a).mapping = Mapping.privateAnon ∧
            (pget st'.pc.pages a).prot = Prot.readOnly ∧
            (pget st'.pc.pages a).content = 0)) := by
  constructor
  · intro h
    unfold ShmMallocWrapper
    rcases h with h | h <;> simp [h]
  · intro addr st' hinit hfin hsz hfresh heq
    unfold ShmMallocWrapper at heq
    rw [if_neg (by simp [hinit]), if_neg (by simp [hfin]),
      if_neg (by simp [IsCloseToMmapLimit])] at heq
    dsimp only at heq
    by_cases h0 : roundSize sz = 0
    · rw [if_pos h0] at heq
      simp at heq
    · rw [if_neg h0] at heq
      rcases ho : oracle with _ | a0
      · rw [ho] at heq
        simp at heq
      · rw [ho] at heq
        simp only [Prod.mk.injEq, Option.some.injEq] at heq
        obtain ⟨haddr, hst⟩ := heq
        subst haddr
        obtain ⟨hmod, hle, hlt⟩ := roundSize_props sz hsz h0
        refine ⟨?_, hmod, hle, hlt, ?_⟩
        · rw [← hst]
          dsimp only
          have hmid : (match st.mergeMetric with
              | MergeMetric.ALLOC_FREQUENCY => MergeByALLOC_FREQUENCY st
              | _ => st).tree.inorder = st.tree.inorder := by
            cases st.mergeMetric <;>
              simp [mergeByALLOC_FREQUENCY_inorder]
          apply AVLNode.mem_inorder_insertAVL_self
          intro p hp
          apply hfresh
          rw [← hmid]
          exact hp
        · intro a ha
          rw [← hst]
          dsimp only
          exact mallocFold_pget_mem _ _ a ha (regionPages_nodup _ _)

/-- C9, witness: allocating 5000 bytes in an initialized layer with the
kernel granting address 40960 records the region (40960, 8192) — 8192
being the rounded size. -/
theorem c9_malloc_contract_witness :
    (40960, 8192) ∈
      ((ShmMallocWrapper (some 40960) 5000
        ⟨true, false, false, MergeMetric.MERGE_DISABLED, 100, 2500, 0, 1000,
          AVLNode.nil, ⟨[], 0, 0, 0, 0, 0⟩⟩).2).tree.inorder ∧
    roundSize 5000 = 8192 := by
  have h := (c9_malloc_contract
      ⟨true, false, false, MergeMetric.MERGE_DISABLED, 100, 2500, 0, 1000,
        AVLNode.nil, ⟨[], 0, 0, 0, 0, 0⟩⟩ (some 40960) 5000).2 40960
      ((ShmMallocWrapper (some 40960) 5000
        ⟨true, false, false, MergeMetric.MERGE_DISABLED, 100, 2500, 0, 1000,
          AVLNode.nil, ⟨[], 0, 0, 0, 0, 0⟩⟩).2)
      rfl rfl (by norm_num [SIZE_T_MOD]) (by simp [AVLNode.inorder]) (by decide)
  have hr : roundSize 5000 = 8192 := by decide
  rw [hr] at h
  exact ⟨h.1, hr⟩

/-! ## C8 — realloc -/

/-- Below 2^31 the `int32_t` byte count survives the round trip. -/
theorem memcpyLen_small (n : Nat) (h : n < 2 ^ 31) : memcpyLen n = n := by
  unfold memcpyLen toInt32 INT32_MOD SIZE_T_MOD
  rw [Nat.mod_eq_of_lt (by omega)]
  rw [if_pos h]
  omega

/-- C8 (amended): realloc via `ShmReallocWrapper`.  For addr not owned by
the layer it returns null; when the recorded size already suffices it
returns addr unchanged with no copy and no state change; otherwise it
allocates a new region, copies min(old, new) bytes — provided that minimum
fits in a signed 32-bit value, the byte count being truncated through an
`int32_t` — frees the old region, and returns the new address. -/
theorem c8_realloc_contract (st : LayerSt) (o po : Option Nat) (ptr size : Nat)
    (hinit : CheckMPIInitialized st = true) :
    ((AVLNode.FindAVL st.tree ptr).getD 0 = 0 →
        ShmReallocWrapper o po ptr size st = (none, st, none)) ∧
    (∀ osz, AVLNode.FindAVL st.tree ptr = some osz → osz ≠ 0 → size ≤ osz →
        ShmReallocWrapper o po ptr size st = (some ptr, st, none)) ∧
    (∀ osz np stM, AVLNode.FindAVL st.tree ptr = some osz → osz ≠ 0 → osz < size →
        ShmMallocWrapper o size st = (some np, stM) →
        ShmReallocWrapper o po ptr size st =
          (some np, (ShmFreeWrapper ptr stM).2, some (memcpyLen (min osz size))) ∧
        (osz < 2 ^ 31 → memcpyLen (min osz size) = osz)) := by
  refine ⟨?_, ?_, ?_⟩
  · intro h
    unfold ShmReallocWrapper
    rw [if_neg (by simp [hinit])]
    simp [h]
  · intro osz hf hne hle
    unfold ShmReallocWrapper
    rw [if_neg (by simp [hinit])]
    dsimp only
    rw [hf]
    simp only [Option.getD_some]
    rw [if_neg hne, if_pos hle]
  · intro osz np stM hf hne hlt hM
    constructor
    · unfold ShmReallocWrapper
      rw [if_neg (by simp [hinit])]
      dsimp only
      rw [hf]
      simp only [Option.getD_some]
      rw [if_neg hne, if_neg (by omega), hM]
    · intro hsmall
      rw [min_eq_left (le_of_lt hlt)]
      exact memcpyLen_small osz hsmall

/-- C8, counterexample: a recorded region of 2^31 bytes grown to
2^31 + 4096 bytes.  The minimum of the old and new sizes is 2^31, but the
byte count handed to memcpy is 2^64 - 2^31: the C code stores the count in
an `int32_t`, which wraps to -2^31 and is sign-extended back to `size_t`,
so the claim's "copies the minimum of the old and new sizes" is false at
this input. -/
theorem c8_counterexample :
    (ShmReallocWrapper (some 901120) none 4096 (2 ^ 31 + 4096)
      ⟨true, false, false, MergeMetric.MERGE_DISABLED, 100, 2500, 0, 1000,
        AVLNode.node 4096 (2 ^ 31) 1 false AVLNode.nil AVLNode.nil,
        ⟨[], 0, 0, 0, 0, 1⟩⟩).2.2 = some (2 ^ 64 - 2 ^ 31) ∧
    min (2 ^ 31) (2 ^ 31 + 4096) = 2 ^ 31 ∧
    (2 ^ 64 - 2 ^ 31 : Nat) ≠ 2 ^ 31 := by
  have h1 : (ShmMallocWrapper (some 901120) (2 ^ 31 + 4096)
      ⟨true, false, false, MergeMetric.MERGE_DISABLED, 100, 2500, 0, 1000,
        AVLNode.node 4096 (2 ^ 31) 1 false AVLNode.nil AVLNode.nil,
        ⟨[], 0, 0, 0, 0, 1⟩⟩).1 = some 901120 := by
    unfold ShmMallocWrapper
    rw [if_neg (by decide), if_neg (by decide), if_neg (by decide)]
    dsimp only
    rw [if_neg (show ¬ roundSize (2 ^ 31 + 4096) = 0 by decide)]
  have hM : ShmMallocWrapper (some 901120) (2 ^ 31 + 4096)
      ⟨true, false, false, MergeMetric.MERGE_DISABLED, 100, 2500, 0, 1000,
        AVLNode.node 4096 (2 ^ 31) 1 false AVLNode.nil AVLNode.nil,
        ⟨[], 0, 0, 0, 0, 1⟩⟩ =
      (some 901120, (ShmMallocWrapper (some 901120) (2 ^ 31 + 4096)
        ⟨true, false, false, MergeMetric.MERGE_DISABLED, 100, 2500, 0, 1000,
          AVLNode.node 4096 (2 ^ 31) 1 false AVLNode.nil AVLNode.nil,
          ⟨[], 0, 0, 0, 0, 1⟩⟩).2) := by
    exact Prod.ext h1 rfl
  have h2 := ((c8_realloc_contract
      ⟨true, false, false, MergeMetric.MERGE_DISABLED, 100, 2500, 0, 1000,
        AVLNode.node 4096 (2 ^ 31) 1 false AVLNode.nil AVLNode.nil,
        ⟨[], 0, 0, 0, 0, 1⟩⟩ (some 901120) none 4096 (2 ^ 31 + 4096)
      (by decide)).2.2 (2 ^ 31) 901120 _ (by decide) (by decide) (by decide) hM).1
  have h3 : memcpyLen (min (2 ^ 31) (2 ^ 31 + 4096)) = 2 ^ 64 - 2 ^ 31 := by decide
  refine ⟨?_, by decide, by decide⟩
  rw [h2, h3]

/-- C8, witness for the amended theorem: a 4096-byte region grown to 8192
bytes returns the fresh address with exactly 4096 bytes copied, and a
shrink request returns the old pointer unchanged. -/
theorem c8_realloc_contract_witness :
    (ShmReallocWrapper (some 40960) none 4096 8192
      ⟨true, false, false, MergeMetric.MERGE_DISABLED, 100, 2500, 0, 1000,
        AVLNode.node 4096 4096 1 false AVLNode.nil AVLNode.nil,
        ⟨[], 0, 0, 0, 0, 1⟩⟩).2.2 = some 4096 ∧
    (ShmReallocWrapper (some 40960) none 4096 4096
      ⟨true, false, false, MergeMetric.MERGE_DISABLED, 100, 2500, 0, 1000,
        AVLNode.node 4096 4096 1 false AVLNode.nil AVLNode.nil,
        ⟨[], 0, 0, 0, 0, 1⟩⟩) =
      (some 4096,
       ⟨true, false, false, MergeMetric.MERGE_DISABLED, 100, 2500, 0, 1000,
         AVLNode.node 4096 4096 1 false AVLNode.nil AVLNode.nil,
         ⟨[], 0, 0, 0, 0, 1⟩⟩, none) := by
  constructor
  · have h := ((c8_realloc_contract
        ⟨true, false, false, MergeMetric.MERGE_DISABLED, 100, 2500, 0, 1000,
          AVLNode.node 4096 4096 1 false AVLNode.nil AVLNode.nil,
          ⟨[], 0, 0, 0, 0, 1⟩⟩ (some 40960) none 4096 8192
        (by decide)).2.2 4096 40960
        ((ShmMallocWrapper (some 40960) 8192
          ⟨true, false, false, MergeMetric.MERGE_DISABLED, 100, 2500, 0, 1000,
            AVLNode.node 4096 4096 1 false AVLNode.nil AVLNode.nil,
            ⟨[], 0, 0, 0, 0, 1⟩⟩).2)
        (by decide) (by decide) (by decide) (by decide))
    rw [h.1]
    have h4 : memcpyLen (min 4096 8192) = 4096 := by decide
    rw [h4]
  · exact (c8_realloc_contract
        ⟨true, false, false, MergeMetric.MERGE_DISABLED, 100, 2500, 0, 1000,
          AVLNode.node 4096 4096 1 false AVLNode.nil AVLNode.nil,
          ⟨[], 0, 0, 0, 0, 1⟩⟩ (some 40960) none 4096 4096
        (by decide)).2.1 4096 (by decide) (by decide) (by decide)

/-! ## C3 — the allocation-index tree is not a correct AVL tree -/

/-- C3, counterexample: after the insertion sequence 6, 0, 5, 1, 4, 3, 2
(distinct keys into an empty index) the tree has a node whose stored height
differs from its true height AND a node whose two subtrees' true heights
differ by more than one (keys 4 < 5 < 6 form a right spine), refuting both
conjuncts of the claim.  (`RotateSingleRight` computes the demoted node's
height from `GetHeight(b)` twice, AVL.cpp lines 483–485, corrupting stored
heights during double rotations; the stale heights then mask imbalances.) -/
theorem c3_counterexample :
    AVLNode.heightsOk (AVLNode.insertSeq [6, 0, 5, 1, 4, 3, 2]) = false ∧
    AVLNode.balancedOk (AVLNode.insertSeq [6, 0, 5, 1, 4, 3, 2]) = false := by
  decide

namespace AVLNode

/-- In-order effect of one `Insert` level, query key below the node key. -/
theorem inorder_Insert_lt (key val k v : Nat) (hh : Int) (d : Bool) (l r : AVLNode)
    (h1 : k < key) :
    (Insert (node key val hh d l r) k v).inorder =
      (Insert l k v).inorder ++ (key, val) :: r.inorder := by
  cases l with
  | nil =>
    simp only [Insert]
    rw [if_pos h1, inorder_balance]
    simp [inorder, newLeaf]
  | node a0 b0 c0 d0 e0 f0 =>
    simp only [Insert]
    rw [if_pos h1, inorder_balance]
    simp only [inorder]

/-- In-order effect of one `Insert` level, query key above the node key. -/
theorem inorder_Insert_gt (key val k v : Nat) (hh : Int) (d : Bool) (l r : AVLNode)
    (h1 : ¬ k < key) (h2 : key < k) :
    (Insert (node key val hh d l r) k v).inorder =
      l.inorder ++ (key, val) :: (Insert r k v).inorder := by
  cases r with
  | nil =>
    simp only [Insert]
    rw [if_neg h1, if_pos h2, inorder_balance]
    simp [inorder, newLeaf]
  | node a0 b0 c0 d0 e0 f0 =>
    simp only [Insert]
    rw [if_neg h1, if_pos h2, inorder_balance]
    simp only [inorder]

/-- `Insert` on an already-present key changes nothing (fail-silent). -/
theorem Insert_eq_of_eq (key val k v : Nat) (hh : Int) (d : Bool) (l r : AVLNode)
    (h1 : ¬ k < key) (h2 : ¬ key < k) :
    Insert (node key val hh d l r) k v = node key val hh d l r := by
  simp only [Insert]
  rw [if_neg h1, if_neg h2]

/-- Everything in the index after `Insert` was there before or is the new
pair. -/
theorem mem_inorder_insert (t : AVLNode) (k v : Nat) (x : Nat × Nat)
    (hx : x ∈ (Insert t k v).inorder) : x ∈ t.inorder ∨ x = (k, v) := by
  induction t with
  | nil =>
    simp [Insert, newLeaf, inorder] at hx
    exact Or.inr hx
  | node key val hh d l r ihl ihr =>
    by_cases h1 : k < key
    · rw [inorder_Insert_lt key val k v hh d l r h1] at hx
      simp only [List.mem_append, List.mem_cons] at hx
      simp only [inorder, List.mem_append, List.mem_cons]
      rcases hx with hx | hx | hx
      · rcases ihl hx with h | h
        · tauto
        · exact Or.inr h
      · tauto
      · tauto
    · by_cases h2 : key < k
      · rw [inorder_Insert_gt key val k v hh d l r h1 h2] at hx
        simp only [List.mem_append, List.mem_cons] at hx
        simp only [inorder, List.mem_append, List.mem_cons]
        rcases hx with hx | hx | hx
        · tauto
        · tauto
        · rcases ihr hx with h | h
          · tauto
          · exact Or.inr h
      · rw [Insert_eq_of_eq key val k v hh d l r h1 h2] at hx
        exact Or.inl hx

/-- `Insert` keeps the in-order region list strictly sorted by base. -/
theorem sorted_insert (t : AVLNode) (k v : Nat)
    (h : t.inorder.Pairwise (fun a b => a.1 < b.1)) :
    ((Insert t k v).inorder).Pairwise (fun a b => a.1 < b.1) := by
  induction t with
  | nil => simp [Insert, newLeaf, inorder]
  | node key val hh d l r ihl ihr =>
    simp only [inorder, List.pairwise_append, List.pairwise_cons] at h
    obtain ⟨hpl, ⟨hkeyr, hpr⟩, hcross⟩ := h
    have hlkey : ∀ a ∈ l.inorder, a.1 < key := by
      intro a ha
      exact hcross a ha (key, val) (List.mem_cons_self _ _)
    by_cases h1 : k < key
    · rw [inorder_Insert_lt key val k v hh d l r h1]
      rw [List.pairwise_append]
      refine ⟨ihl hpl, List.Pairwise.cons hkeyr hpr, ?_⟩
      intro a ha b hb
      rcases mem_inorder_insert _ _ _ _ ha with hain | rfl
      · exact hcross a hain b hb
      · rcases List.mem_cons.mp hb with rfl | hb
        · exact h1
        · exact lt_trans h1 (hkeyr b hb)
    · by_cases h2 : key < k
      · rw [inorder_Insert_gt key val k v hh d l r h1 h2]
        rw [List.pairwise_append, List.pairwise_cons]
        refine ⟨hpl, ⟨?_, ihr hpr⟩, ?_⟩
        · intro b hb
          rcases mem_inorder_insert _ _ _ _ hb with hbin | rfl
          · exact hkeyr b hbin
          · exact h2
        · intro a ha b hb
          rcases List.mem_cons.mp hb with rfl | hb
          · exact hlkey a ha
          · rcases mem_inorder_insert _ _ _ _ hb with hbin | rfl
            · exact lt_trans (hlkey a ha) (hkeyr b hbin)
            · exact lt_trans (hlkey a ha) h2
      · rw [Insert_eq_of_eq key val k v hh d l r h1 h2]
        simp only [inorder, List.pairwise_append, List.pairwise_cons]
        exact ⟨hpl, ⟨hkeyr, hpr⟩, hcross⟩

theorem sorted_insertAVL (t : AVLNode) (k v : Nat)
    (h : t.inorder.Pairwise (fun a b => a.1 < b.1)) :
    ((InsertAVL t k v).inorder).Pairwise (fun a b => a.1 < b.1) := by
  rw [InsertAVL, inorder_balance]
  exact sorted_insert t k v h

/-- `RemoveLeftMost` peels off exactly the head of the in-order list. -/
theorem removeLeftMost_inorder (t : AVLNode) (ht : t ≠ nil) :
    t.inorder = (RemoveLeftMost t).1 :: ((RemoveLeftMost t).2).inorder := by
  induction t with
  | nil => exact absurd rfl ht
  | node k v h d l r ihl ihr =>
    cases l with
    | nil => simp [RemoveLeftMost, inorder]
    | node a0 b0 c0 d0 e0 f0 =>
      have hih := ihl (by simp)
      clear ihl ihr ht
      have hstep : RemoveLeftMost (node k v h d (node a0 b0 c0 d0 e0 f0) r) =
          ((RemoveLeftMost (node a0 b0 c0 d0 e0 f0)).1,
           Balance (node k v
             (max
               (match r with
                | nil => (0 : Int) | node _ _ hh _ _ _ => hh + 1)
               (match (RemoveLeftMost (node a0 b0 c0 d0 e0 f0)).2 with
                | nil => (0 : Int) | node _ _ hh _ _ _ => hh + 1))
             d (RemoveLeftMost (node a0 b0 c0 d0 e0 f0)).2 r)) := by
        simp only [RemoveLeftMost]
      rw [hstep, inorder_balance]
      simp only [inorder] at hih ⊢
      rw [← List.cons_append, ← hih]

/-- `RemoveRightMost` peels off exactly the last element of the in-order
list. -/
theorem removeRightMost_inorder (t : AVLNode) (ht : t ≠ nil) :
    t.inorder = ((RemoveRightMost t).2).inorder ++ [(RemoveRightMost t).1] := by
  induction t with
  | nil => exact absurd rfl ht
  | node k v h d l r ihl ihr =>
    cases r with
    | nil => simp [RemoveRightMost, inorder]
    | node a0 b0 c0 d0 e0 f0 =>
      have hih := ihr (by simp)
      clear ihl ihr ht
      have hstep : RemoveRightMost (node k v h d l (node a0 b0 c0 d0 e0 f0)) =
          ((RemoveRightMost (node a0 b0 c0 d0 e0 f0)).1,
           Balance (node k v
             (max
               (match (RemoveRightMost (node a0 b0 c0 d0 e0 f0)).2 with
                | nil => (0 : Int) | node _ _ hh _ _ _ => hh + 1)
               (match l with
                | nil => (0 : Int) | node _ _ hh _ _ _ => hh + 1))
             d l (RemoveRightMost (node a0 b0 c0 d0 e0 f0)).2)) := by
        simp only [RemoveRightMost]
      rw [hstep, inorder_balance]
      simp only [inorder] at hih ⊢
      rw [hih]
      simp

/-- The in-order list after `Remove` is a sublist of the one before. -/
theorem remove_inorder_sublist (t : AVLNode) (k : Nat) :
    ((Remove t k).2).inorder.Sublist t.inorder := by
  induction t with
  | nil => simp [Remove]
  | node key val h d l r ihl ihr =>
    by_cases h1 : k < key
    · simp only [Remove, if_pos h1, inorder_balance, inorder]
      exact List.Sublist.append ihl (List.Sublist.refl _)
    · by_cases h2 : key < k
      · simp only [Remove, if_neg h1, if_pos h2, inorder_balance, inorder]
        exact List.Sublist.append (List.Sublist.refl _) (List.Sublist.cons₂ _ ihr)
      · cases r with
        | node a0 b0 c0 d0 e0 f0 =>
          have hrlm := removeLeftMost_inorder (node a0 b0 c0 d0 e0 f0) (by simp)
          simp only [inorder] at hrlm
          simp only [Remove, if_neg h1, if_neg h2, inorder_balance, inorder]
          rw [hrlm]
          refine List.Sublist.append (List.Sublist.refl _) ?_
          refine List.Sublist.trans ?_ (List.sublist_cons_self _ _)
          simp
        | nil =>
          cases l with
          | node a0 b0 c0 d0 e0 f0 =>
            have hrrm := removeRightMost_inorder (node a0 b0 c0 d0 e0 f0) (by simp)
            simp only [inorder] at hrrm
            simp only [Remove, inorder_balance, inorder]
            rw [if_neg h1, if_neg h2]
            simp only [inorder_balance, inorder]
            rw [hrrm]
            simp
          | nil =>
            simp only [Remove, inorder]
            rw [if_neg h1, if_neg h2]
            simp [inorder]

theorem sorted_removeAVL (t : AVLNode) (k : Nat)
    (h : t.inorder.Pairwise (fun a b => a.1 < b.1)) :
    (((RemoveAVL t k).2).inorder).Pairwise (fun a b => a.1 < b.1) :=
  h.sublist (remove_inorder_sublist t k)

/-- C5: `FindRangeAVL` (find_containing) is a correct interval-cover search.
For every index tree whose in-order region list is sorted with pairwise
disjoint half-open intervals (`x.base + x.size ≤ y.base` for `x` before `y`)
and whose regions all have positive size, `FindRangeAVL t a` returns
`some (b, s)` exactly when the region `(b, s)` is recorded in the tree and
its half-open interval `[b, b + s)` contains `a`; in particular it returns
`none` exactly when no recorded region covers `a`. -/
theorem c5_findRange_correct (t : AVLNode) (a : Nat)
    (hsd : (inorder t).Pairwise (fun x y => x.1 + x.2 ≤ y.1))
    (hpos : ∀ x ∈ inorder t, 0 < x.2) (b s : Nat) :
    FindRangeAVL t a = some (b, s) ↔
      ((b, s) ∈ inorder t ∧ b ≤ a ∧ a < b + s) := by
  induction t with
  | nil => simp [FindRangeAVL, inorder]
  | node key val hh d l r ihl ihr =>
    simp only [inorder, List.pairwise_append, List.pairwise_cons] at hsd
    obtain ⟨hpl, ⟨hkr, hpr⟩, hcross⟩ := hsd
    simp only [inorder, List.mem_append, List.mem_cons] at hpos
    have hposl : ∀ x ∈ l.inorder, 0 < x.2 := fun x hx => hpos x (Or.inl hx)
    have hposn : 0 < val := hpos (key, val) (Or.inr (Or.inl rfl))
    have hposr : ∀ x ∈ r.inorder, 0 < x.2 := fun x hx => hpos x (Or.inr (Or.inr hx))
    have hlk : ∀ x ∈ l.inorder, x.1 + x.2 ≤ key := fun x hx =>
      hcross x hx (key, val) (List.mem_cons_self _ _)
    simp only [FindRangeAVL, inorder, List.mem_append, List.mem_cons]
    by_cases h1 : a < key
    · rw [if_pos h1, ihl hpl hposl]
      constructor
      · rintro ⟨hm, hle, hlt⟩
        exact ⟨Or.inl hm, hle, hlt⟩
      · rintro ⟨hm, hle, hlt⟩
        rcases hm with hm | hm | hm
        · exact ⟨hm, hle, hlt⟩
        · rw [Prod.mk.injEq] at hm
          omega
        · have := hkr (b, s) hm
          have := hposr (b, s) hm
          simp only at this
          omega
    · rw [if_neg h1]
      by_cases h2 : key < a
      · rw [if_pos h2]
        by_cases h3 : key + val > a
        · rw [if_pos h3]
          constructor
          · intro he
            rw [Option.some.injEq, Prod.mk.injEq] at he
            obtain ⟨hb, hs⟩ := he
            subst hb; subst hs
            exact ⟨Or.inr (Or.inl rfl), le_of_lt h2, h3⟩
          · rintro ⟨hm, hle, hlt⟩
            rcases hm with hm | hm | hm
            · exfalso
              have := hlk (b, s) hm
              simp only at this
              omega
            · rw [Prod.mk.injEq] at hm
              obtain ⟨hb, hs⟩ := hm
              subst hb; subst hs
              rfl
            · exfalso
              have := hkr (b, s) hm
              simp only at this
              omega
        · rw [if_neg h3, ihr hpr hposr]
          constructor
          · rintro ⟨hm, hle, hlt⟩
            exact ⟨Or.inr (Or.inr hm), hle, hlt⟩
          · rintro ⟨hm, hle, hlt⟩
            rcases hm with hm | hm | hm
            · exfalso
              have := hlk (b, s) hm
              simp only at this
              omega
            · exfalso
              rw [Prod.mk.injEq] at hm
              omega
            · exact ⟨hm, hle, hlt⟩
      · rw [if_neg h2]
        have hak : a = key := le_antisymm (not_lt.mp h2) (not_lt.mp h1)
        constructor
        · intro he
          rw [Option.some.injEq, Prod.mk.injEq] at he
          obtain ⟨hb, hs⟩ := he
          subst hb; subst hs
          exact ⟨Or.inr (Or.inl rfl), le_of_eq hak.symm, by omega⟩
        · rintro ⟨hm, hle, hlt⟩
          rcases hm with hm | hm | hm
          · exfalso
            have := hlk (b, s) hm
            simp only at this
            omega
          · rw [Prod.mk.injEq] at hm
            obtain ⟨hb, hs⟩ := hm
            subst hb; subst hs
            rfl
          · exfalso
            have := hkr (b, s) hm
            simp only at this
            omega

/-- C5 witness: on the three-region index {[50,55), [100,110), [200,220)},
`FindRangeAVL` at address 105 returns the covering region (100, 10), as the
correctness theorem instantiated there demands. -/
theorem c5_findRange_correct_witness :
    FindRangeAVL
        (node 100 10 2 false (node 50 5 1 false nil nil)
          (node 200 20 1 false nil nil)) 105 = some (100, 10) ∧
      ((100, 10) ∈ inorder
          (node 100 10 2 false (node 50 5 1 false nil nil)
            (node 200 20 1 false nil nil)) ∧ 100 ≤ 105 ∧ 105 < 100 + 10) := by
  have h := c5_findRange_correct
    (node 100 10 2 false (node 50 5 1 false nil nil)
      (node 200 20 1 false nil nil)) 105
    (by decide) (by decide) 100 10
  exact ⟨h.mpr (by decide), h.mp (by decide)⟩

end AVLNode

/-- C3 (amended): the allocation-index tree is NOT maintained as a correct
AVL tree — the stored heights and the balance bound can both be violated
(see the counterexample) — but every sequence of `InsertAVL` and
`RemoveAVL` operations starting from the empty index leaves it a valid
binary search tree: its in-order region list is strictly sorted by base
address, so lookups by the ordering comparator remain correct (without the
O(log N) depth bound the claim asserts). -/
theorem c3_bst_preserved (ops : List TreeOp) :
    ((applyTreeOps ops).inorder).Pairwise (fun a b => a.1 < b.1) := by
  suffices hgen : ∀ (ops : List TreeOp) (t : AVLNode),
      (t.inorder.Pairwise fun a b => a.1 < b.1) →
      ((ops.foldl (fun t op =>
        match op with
        | TreeOp.ins k v => AVLNode.InsertAVL t k v
        | TreeOp.del k => (AVLNode.RemoveAVL t k).2) t).inorder.Pairwise
          fun a b => a.1 < b.1) by
    exact hgen ops AVLNode.nil (by simp [AVLNode.inorder])
  intro ops
  induction ops with
  | nil => intro t ht; simpa using ht
  | cons op rest ih =>
    intro t ht
    simp only [List.foldl_cons]
    apply ih
    cases op with
    | ins k v => exact AVLNode.sorted_insertAVL t k v ht
    | del k => exact AVLNode.sorted_removeAVL t k ht

end SBLL
